import Mathlib

/-!
Verification of the user-authentication service and the log-redaction
utility of this repository, as a shallow embedding in Lean 4.

The `AuthService` namespace embeds `0x03-user_authentication_service`
(`db.py`, `auth.py`, `user.py`, and the PUT /reset_password handler of
`app.py`).  The `FilteredLogger` namespace embeds `filter_datum` of
`0x00-personal_data/filtered_logger.py`.
-/

/-- Equality on `Except` results is decidable when it is on both sides. -/
instance {ε α : Type} [DecidableEq ε] [DecidableEq α] : DecidableEq (Except ε α) := fun x y =>
  match x, y with
  | Except.ok a, Except.ok b =>
    if h : a = b then Decidable.isTrue (by rw [h])
    else Decidable.isFalse (by intro hh; cases hh; exact h rfl)
  | Except.ok _, Except.error _ => Decidable.isFalse (by intro hh; cases hh)
  | Except.error _, Except.ok _ => Decidable.isFalse (by intro hh; cases hh)
  | Except.error e, Except.error e' =>
    if h : e = e' then Decidable.isTrue (by rw [h])
    else Decidable.isFalse (by intro hh; cases hh; exact h rfl)

namespace AuthService

/-- A value that can be stored in a column of the `users` table or passed
as a keyword argument.  `vNone` models Python `None` (a NULL column). -/
inductive Value where
  | vNat : Nat → Value
  | vStr : String → Value
  | vNone : Value
deriving DecidableEq, Repr

/-- One row of the `users` table, mirroring the SQLAlchemy model of
`user.py`: `id` (integer primary key), `email` and `hashed_password`
(non-nullable strings), `session_id` and `reset_token` (nullable strings).
The bcrypt hash is modelled as a string. -/
structure UserRec where
  id : Nat
  email : String
  hashed_password : String
  session_id : Option String
  reset_token : Option String
deriving DecidableEq, Repr

/-- The column names declared on the `User` model in `user.py`.  These are
the attributes that `filter_by` accepts and that `update_user`'s
`hasattr` check recognizes (the model restricts Python's `hasattr` to the
declared columns, which are the only attributes the repository ever
passes). -/
def userAttrs : List String := ["id", "email", "hashed_password", "session_id", "reset_token"]

/-- Whether `k` names a column of `User`. -/
def validAttr (k : String) : Bool := userAttrs.contains k

/-- Python `getattr(user, k)` for a column name `k`. -/
def getAttr (u : UserRec) (k : String) : Value :=
  if k = "id" then Value.vNat u.id
  else if k = "email" then Value.vStr u.email
  else if k = "hashed_password" then Value.vStr u.hashed_password
  else if k = "session_id" then
    match u.session_id with
    | some s => Value.vStr s
    | none => Value.vNone
  else if k = "reset_token" then
    match u.reset_token with
    | some s => Value.vStr s
    | none => Value.vNone
  else Value.vNone

/-- Python `setattr(user, k, v)` for a column name `k`.  Only the
type-correct assignments the repository performs are given meaning;
any other combination leaves the record unchanged. -/
def setAttr (u : UserRec) (k : String) (v : Value) : UserRec :=
  if k = "id" then
    match v with
    | Value.vNat n => { u with id := n }
    | _ => u
  else if k = "email" then
    match v with
    | Value.vStr s => { u with email := s }
    | _ => u
  else if k = "hashed_password" then
    match v with
    | Value.vStr s => { u with hashed_password := s }
    | _ => u
  else if k = "session_id" then
    match v with
    | Value.vStr s => { u with session_id := some s }
    | Value.vNone => { u with session_id := none }
    | _ => u
  else if k = "reset_token" then
    match v with
    | Value.vStr s => { u with reset_token := some s }
    | Value.vNone => { u with reset_token := none }
    | _ => u
  else u

/-- The exceptions raised by `db.py` and `auth.py`:
`noResultFound` is sqlalchemy `NoResultFound`; `invalidRequest` is
sqlalchemy `InvalidRequestError` (whose subclass `MultipleResultsFound`
is raised by `Query.one()` on more than one row and re-raised by
`find_user_by` as a plain `InvalidRequestError`); `valueError` is
Python `ValueError`. -/
inductive DBError where
  | noResultFound
  | invalidRequest
  | valueError
deriving DecidableEq, Repr

/-- The state of the `DB` object.  `users` is the session-visible list of
rows in insertion order: because the single memoized session identity-maps
ORM objects, an un-committed `setattr` is immediately visible to every
later query through the same session.  `persisted` is the content at the
last commit. -/
structure DBState where
  users : List UserRec
  persisted : List UserRec
deriving DecidableEq, Repr

/-- `filter_by(**criteria)`: does row `u` satisfy every `key=value` pair? -/
def matchesCriteria (criteria : List (String × Value)) (u : UserRec) : Bool :=
  criteria.all fun kv => decide (getAttr u kv.1 = kv.2)

/-- `DB.find_user_by(**criteria)` (db.py).  Raises `InvalidRequestError`
on an empty criteria mapping or an unknown column; otherwise
`Query.one()` returns the unique match, raises `NoResultFound` on zero
matches and `MultipleResultsFound` (re-raised as `InvalidRequestError`)
on two or more. -/
def find_user_by (st : DBState) (criteria : List (String × Value)) : Except DBError UserRec :=
  if criteria.isEmpty then Except.error DBError.invalidRequest
  else if criteria.any (fun kv => !validAttr kv.1) then Except.error DBError.invalidRequest
  else
    match st.users.filter (matchesCriteria criteria) with
    | [] => Except.error DBError.noResultFound
    | [u] => Except.ok u
    | _ :: _ :: _ => Except.error DBError.invalidRequest

/-- The auto-increment id SQLite assigns to the next inserted row. -/
def nextId (users : List UserRec) : Nat := (users.map UserRec.id).foldr max 0 + 1

/-- `DB.add_user(email, hashed_password)` (db.py): inserts a fresh row and
commits.  The commit flushes the whole session, so `persisted` becomes the
full current session content. -/
def add_user (st : DBState) (email : String) (hashed_password : String) : DBState × UserRec :=
  let u : UserRec :=
    { id := nextId st.users, email := email, hashed_password := hashed_password
      session_id := none, reset_token := none }
  let users' := st.users ++ [u]
  ({ users := users', persisted := users' }, u)

/-- `setattr` on the session object with id `uid`: visible at once in the
session view, not yet committed. -/
def mutateUser (st : DBState) (uid : Nat) (k : String) (v : Value) : DBState :=
  { st with users := st.users.map fun u => if u.id = uid then setAttr u k v else u }

/-- `session.commit()`: persists the current session content. -/
def commit (st : DBState) : DBState := { st with persisted := st.users }

/-- The `for key, value in kwargs.items()` loop of `DB.update_user`: each
key is checked with `hasattr` and then immediately `setattr`-ed; the first
invalid key raises `ValueError`, leaving the earlier assignments applied
to the session object and skipping the final commit. -/
def applyKwargs (st : DBState) (uid : Nat) : List (String × Value) → DBState × Option DBError
  | [] => (commit st, none)
  | (k, v) :: rest =>
    if validAttr k then applyKwargs (mutateUser st uid k v) uid rest
    else (st, some DBError.valueError)

/-- `DB.update_user(user_id, **kwargs)` (db.py): finds the row by id
(propagating the lookup error), then runs the check-and-set loop and
commits at the end.  The returned state is the session state when the
call returns or raises. -/
def update_user (st : DBState) (user_id : Nat) (kwargs : List (String × Value)) : DBState × Option DBError :=
  match find_user_by st [("id", Value.vNat user_id)] with
  | Except.error e => (st, some e)
  | Except.ok u => applyKwargs st u.id kwargs

/-- `Auth.register_user(email, password)` (auth.py).  The bcrypt hashing
`_hash_password` is injected as `hashFn` (it draws a fresh salt, so it is
an oracle here).  A successful email lookup raises `ValueError`
(uncaught); `NoResultFound` is caught and the user is added; any other
lookup error propagates. -/
def register_user (st : DBState) (email : String) (password : String)
    (hashFn : String → String) : DBState × Except DBError UserRec :=
  match find_user_by st [("email", Value.vStr email)] with
  | Except.ok _ => (st, Except.error DBError.valueError)
  | Except.error DBError.noResultFound =>
    let r := add_user st email (hashFn password)
    (r.1, Except.ok r.2)
  | Except.error e => (st, Except.error e)

/-- `Auth.valid_login(email, password)` (auth.py).  `bcrypt.checkpw` is
injected as `checkpw : password → stored hash → Bool`.  `NoResultFound`
is caught and yields `false`; other lookup errors propagate. -/
def valid_login (st : DBState) (email : String) (password : String)
    (checkpw : String → String → Bool) : Except DBError Bool :=
  match find_user_by st [("email", Value.vStr email)] with
  | Except.ok u => Except.ok (checkpw password u.hashed_password)
  | Except.error DBError.noResultFound => Except.ok false
  | Except.error e => Except.error e

/-- `Auth.create_session(email)` (auth.py).  The `_generate_uuid()` result
is injected as `fresh`.  The whole body sits in one `try`, so a
`NoResultFound` raised by either the lookup or `update_user` yields
`None`; other errors propagate. -/
def create_session (st : DBState) (email : String) (fresh : String) :
    DBState × Except DBError (Option String) :=
  match find_user_by st [("email", Value.vStr email)] with
  | Except.ok u =>
    let r := update_user st u.id [("session_id", Value.vStr fresh)]
    match r.2 with
    | none => (r.1, Except.ok (some fresh))
    | some DBError.noResultFound => (r.1, Except.ok none)
    | some e => (r.1, Except.error e)
  | Except.error DBError.noResultFound => (st, Except.ok none)
  | Except.error e => (st, Except.error e)

/-- `Auth.get_user_from_session_id(session_id)` (auth.py): `None` input
short-circuits to `None`; `NoResultFound` is caught and yields `None`. -/
def get_user_from_session_id (st : DBState) (session_id : Option String) :
    Except DBError (Option UserRec) :=
  match session_id with
  | none => Except.ok none
  | some sid =>
    match find_user_by st [("session_id", Value.vStr sid)] with
    | Except.ok u => Except.ok (some u)
    | Except.error DBError.noResultFound => Except.ok none
    | Except.error e => Except.error e

/-- `Auth.destroy_session(user_id)` (auth.py): a bare call to
`update_user` with `session_id=None`, with no exception handling. -/
def destroy_session (st : DBState) (user_id : Nat) : DBState × Option DBError :=
  update_user st user_id [("session_id", Value.vNone)]

/-- `Auth.get_reset_password_token(email)` (auth.py).  The generated uuid
is injected as `fresh`.  The whole body sits in one `try`, so any
`NoResultFound` becomes `ValueError`; other errors propagate. -/
def get_reset_password_token (st : DBState) (email : String) (fresh : String) :
    DBState × Except DBError String :=
  match find_user_by st [("email", Value.vStr email)] with
  | Except.ok u =>
    let r := update_user st u.id [("reset_token", Value.vStr fresh)]
    match r.2 with
    | none => (r.1, Except.ok fresh)
    | some DBError.noResultFound => (r.1, Except.error DBError.valueError)
    | some e => (r.1, Except.error e)
  | Except.error DBError.noResultFound => (st, Except.error DBError.valueError)
  | Except.error e => (st, Except.error e)

/-- `Auth.update_password(reset_token, password)` (auth.py): looks the
user up by reset token, then stores the new hash and clears the token in
a single `update_user` call.  Any `NoResultFound` becomes `ValueError`;
other errors propagate. -/
def update_password (st : DBState) (reset_token : String) (password : String)
    (hashFn : String → String) : DBState × Except DBError Unit :=
  match find_user_by st [("reset_token", Value.vStr reset_token)] with
  | Except.ok u =>
    let r := update_user st u.id
      [("hashed_password", Value.vStr (hashFn password)), ("reset_token", Value.vNone)]
    match r.2 with
    | none => (r.1, Except.ok ())
    | some DBError.noResultFound => (r.1, Except.error DBError.valueError)
    | some e => (r.1, Except.error e)
  | Except.error DBError.noResultFound => (st, Except.error DBError.valueError)
  | Except.error e => (st, Except.error e)

/-- The outcome of the PUT /reset_password handler in `app.py`: a 200
response whose JSON body holds the echoed email, an `abort(403)`, or an
exception the handler does not catch (surfaced by Flask as a 500). -/
inductive HttpResult where
  | ok200 (body : List (String × String))
  | forbidden403
  | uncaught (e : DBError)
deriving DecidableEq, Repr

/-- The HTTP status code of a result. -/
def httpStatus : HttpResult → Nat
  | HttpResult.ok200 _ => 200
  | HttpResult.forbidden403 => 403
  | HttpResult.uncaught _ => 500

/-- The PUT /reset_password route handler `update_password` of `app.py`:
reads `email`, `reset_token` and `new_password` from the form, calls
`AUTH.update_password(reset_token, new_password)` — the email is never
passed on — and answers 200 echoing the submitted email, or 403 on
`ValueError`. -/
def app_update_password (st : DBState) (email : String) (reset_token : String)
    (new_password : String) (hashFn : String → String) : DBState × HttpResult :=
  let r := update_password st reset_token new_password hashFn
  match r.2 with
  | Except.ok _ => (r.1, HttpResult.ok200 [("email", email), ("message", "Password updated")])
  | Except.error DBError.valueError => (r.1, HttpResult.forbidden403)
  | Except.error e => (r.1, HttpResult.uncaught e)

/-- The row `add_user` inserts into a store: fresh auto-increment id,
the given email and hash, no session, no reset token. -/
def freshUser (st : DBState) (email : String) (hashed : String) : UserRec :=
  { id := nextId st.users, email := email, hashed_password := hashed
    session_id := none, reset_token := none }

/-- The state after a successful `update_password` on the user whose id
is `uid`: that row carries the new hash and a cleared token, everything
is committed. -/
def passwordUpdated (st : DBState) (uid : Nat) (h : String) : DBState :=
  { users := st.users.map fun x =>
      if x.id = uid then { x with hashed_password := h, reset_token := none } else x
    persisted := st.users.map fun x =>
      if x.id = uid then { x with hashed_password := h, reset_token := none } else x }

/-- The state after a successful `create_session` for the user whose id
is `uid`: that row carries the fresh session id, everything is
committed. -/
def sessionSet (st : DBState) (uid : Nat) (sid : String) : DBState :=
  { users := st.users.map fun x =>
      if x.id = uid then { x with session_id := some sid } else x
    persisted := st.users.map fun x =>
      if x.id = uid then { x with session_id := some sid } else x }

/-- An empty, freshly committed store. -/
def emptySt : DBState := { users := [], persisted := [] }

/-- A store with one registered user. -/
def exUser1 : UserRec :=
  { id := 1, email := "a@x.com", hashed_password := "h1", session_id := none, reset_token := none }

/-- The one-user example store. -/
def exSt1 : DBState := { users := [exUser1], persisted := [exUser1] }

/-- Two distinct rows sharing an email, as admitted by the registration
race documented in the specification. -/
def dupUser1 : UserRec :=
  { id := 1, email := "dup@x.com", hashed_password := "h1", session_id := none, reset_token := none }

/-- Second row with the duplicated email. -/
def dupUser2 : UserRec :=
  { id := 2, email := "dup@x.com", hashed_password := "h2", session_id := none, reset_token := none }

/-- The duplicate-email example store. -/
def exStDup : DBState := { users := [dupUser1, dupUser2], persisted := [dupUser1, dupUser2] }

/-- A user holding an outstanding reset token. -/
def tokUser : UserRec :=
  { id := 7, email := "t@x.com", hashed_password := "oldhash", session_id := none,
    reset_token := some "TOK" }

/-- The example store with one outstanding reset token. -/
def exStTok : DBState := { users := [tokUser], persisted := [tokUser] }

end AuthService

namespace FilteredLogger

/-- The attempt of the non-greedy `.*?{separator}` tail of the pattern
`f"{field}=.*?{separator}"` at a fixed position: it consumes the shortest
run of non-newline characters followed by the separator, returning the
consumed value and the remaining input, or fails when no such run exists
(end of input or a newline first).  The source interpolates the separator
into the regex unescaped; the separators the repository uses (";") carry
no regex metacharacters, so literal matching is exact. -/
def findValue (sep : List Char) : List Char → Option (List Char × List Char)
  | [] => if sep.isPrefixOf ([] : List Char) then some ([], []) else none
  | x :: xs =>
    if sep.isPrefixOf (x :: xs) then some ([], (x :: xs).drop sep.length)
    else if x = '\n' then none
    else
      match findValue sep xs with
      | some (v, a) => some (x :: v, a)
      | none => none

theorem findValue_length_le (sep : List Char) :
    ∀ (l v a : List Char), findValue sep l = some (v, a) → a.length ≤ l.length := by
  intro l
  induction l with
  | nil =>
    intro v a h
    simp only [findValue] at h
    split at h
    · cases h; simp
    · cases h
  | cons x xs ih =>
    intro v a h
    simp only [findValue] at h
    split at h
    · cases h
      simp
    · split at h
      · cases h
      · cases hfv : findValue sep xs with
        | none => rw [hfv] at h; cases h
        | some p =>
          rw [hfv] at h
          cases h
          have := ih p.1 p.2 (by rw [hfv])
          simpa using Nat.le_succ_of_le this

/-- One pass of `re.sub(f"{field}=.*?{separator}", repl, message)` over
the message with explicit fuel, scanning left to right: at each position
the literal `field=` prefix is tried and, on success, the non-greedy
value-and-separator tail; a full match is replaced by `repl` and scanning
resumes after the match (the replacement itself is not rescanned),
otherwise the scan advances one character.  Every step consumes at least
one character, so fuel equal to the input length suffices
(`redactScanF_irrel` below shows any sufficient fuel gives the same
result); the fuel only makes the recursion structural.  Field names are
interpolated into the regex unescaped in the source; they are matched
literally here, which is exact for metacharacter-free names such as the
repository's PII fields. -/
def redactScanF (f repl sep : List Char) : Nat → List Char → List Char
  | _, [] => []
  | 0, l => l
  | Nat.succ fuel, x :: xs =>
    match findValue sep ((x :: xs).drop (f.length + 1)) with
    | some p =>
      if (f ++ ['=']).isPrefixOf (x :: xs) then repl ++ redactScanF f repl sep fuel p.2
      else x :: redactScanF f repl sep fuel xs
    | none => x :: redactScanF f repl sep fuel xs

/-- The scan with just enough fuel. -/
def redactScan (f repl sep l : List Char) : List Char := redactScanF f repl sep l.length l

theorem redactScanF_irrel (f repl sep : List Char) (N : Nat) :
    ∀ (l : List Char), l.length ≤ N → ∀ n m : Nat, l.length ≤ n → l.length ≤ m →
      redactScanF f repl sep n l = redactScanF f repl sep m l := by
  induction N with
  | zero =>
    intro l hl n m _ _
    have : l = [] := by
      cases l with
      | nil => rfl
      | cons x xs => simp at hl
    subst this
    cases n <;> cases m <;> rfl
  | succ N ih =>
    intro l hl n m hn hm
    cases l with
    | nil => cases n <;> cases m <;> rfl
    | cons x xs =>
      cases n with
      | zero => simp at hn
      | succ n' =>
        cases m with
        | zero => simp at hm
        | succ m' =>
          simp only [List.length_cons, Nat.succ_le_succ_iff] at hl hn hm
          simp only [redactScanF]
          cases hfv : findValue sep ((x :: xs).drop (f.length + 1)) with
          | none =>
            exact congrArg (x :: ·) (ih xs hl n' m' hn hm)
          | some p =>
            by_cases hpre : (f ++ ['=']).isPrefixOf (x :: xs) = true
            · simp only [hpre, if_true]
              have hp2 : p.2.length ≤ xs.length := by
                have h1 := findValue_length_le sep ((x :: xs).drop (f.length + 1)) p.1 p.2
                  (by rw [hfv])
                have h2 : ((x :: xs).drop (f.length + 1)).length ≤ xs.length := by
                  simp
                omega
              exact congrArg (repl ++ ·)
                (ih p.2 (le_trans hp2 hl) n' m' (le_trans hp2 hn) (le_trans hp2 hm))
            · simp only [hpre, if_false]
              exact congrArg (x :: ·) (ih xs hl n' m' hn hm)

theorem redactScan_nil (f repl sep : List Char) : redactScan f repl sep [] = [] := rfl

theorem redactScan_cons (f repl sep : List Char) (x : Char) (xs : List Char) :
    redactScan f repl sep (x :: xs) =
      match findValue sep ((x :: xs).drop (f.length + 1)) with
      | some p =>
        if (f ++ ['=']).isPrefixOf (x :: xs) then repl ++ redactScan f repl sep p.2
        else x :: redactScan f repl sep xs
      | none => x :: redactScan f repl sep xs := by
  show redactScanF f repl sep (xs.length + 1) (x :: xs) = _
  simp only [redactScanF]
  cases hfv : findValue sep ((x :: xs).drop (f.length + 1)) with
  | none => rfl
  | some p =>
    by_cases hpre : (f ++ ['=']).isPrefixOf (x :: xs) = true
    · simp only [hpre, if_true]
      have hp2 : p.2.length ≤ xs.length := by
        have h1 := findValue_length_le sep ((x :: xs).drop (f.length + 1)) p.1 p.2 (by rw [hfv])
        have h2 : ((x :: xs).drop (f.length + 1)).length ≤ xs.length := by simp
        omega
      exact congrArg (repl ++ ·)
        (redactScanF_irrel f repl sep xs.length p.2 hp2 xs.length p.2.length hp2 le_rfl)
    · simp only [hpre, if_false]
      rfl

/-- One iteration of the loop body of `filter_datum`:
`re.sub(f"{field}=.*?{separator}", f"{field}={redaction}{separator}", message)`. -/
def subOne (field red sep msg : List Char) : List Char :=
  redactScan field (field ++ '=' :: (red ++ sep)) sep msg

/-- `filter_datum(fields, redaction, message, separator)` of
`filtered_logger.py`: folds the substitution over the field list in
order. -/
def filter_datum (fields : List String) (redaction : String) (message : String)
    (separator : String) : String :=
  String.mk (fields.foldl (fun m field => subOne field.toList redaction.toList separator.toList m)
    message.toList)

/-- Renders a list of `(key, value)` pairs as the `key=value<sep>` line
format the repository's logging pipeline produces. -/
def renderPairs (c : Char) : List (List Char × List Char) → List Char
  | [] => []
  | p :: ps => p.1 ++ '=' :: (p.2 ++ c :: renderPairs c ps)

/-- The effect of one field's substitution on one `key=value` pair: the
value is replaced by the redaction exactly when `field=` lines up with
the end of the key (the unanchored regex also fires when `field` is a
proper suffix of the key) and the value is free of newlines. -/
def pairRedact (f red : List Char) (p : List Char × List Char) : List Char × List Char :=
  if f.isSuffixOf p.1 && !p.2.contains '\n' then (p.1, red) else p

/-- The effect of a whole field list on one pair, in list order. -/
def pairApply (red : List Char) (fields : List (List Char)) (p : List Char × List Char) :
    List Char × List Char :=
  fields.foldl (fun q f => pairRedact f red q) p

end FilteredLogger

namespace AuthService

theorem getAttr_email_eq (u : UserRec) : getAttr u "email" = Value.vStr u.email := rfl

theorem getAttr_id_eq (u : UserRec) : getAttr u "id" = Value.vNat u.id := rfl

theorem getAttr_reset_eq (u : UserRec) :
    getAttr u "reset_token" =
      match u.reset_token with
      | some s => Value.vStr s
      | none => Value.vNone := rfl

theorem getAttr_session_eq (u : UserRec) :
    getAttr u "session_id" =
      match u.session_id with
      | some s => Value.vStr s
      | none => Value.vNone := rfl

theorem setAttr_hashed_eq (u : UserRec) (s : String) :
    setAttr u "hashed_password" (Value.vStr s) = { u with hashed_password := s } := rfl

theorem setAttr_reset_none_eq (u : UserRec) :
    setAttr u "reset_token" Value.vNone = { u with reset_token := none } := rfl

theorem setAttr_session_some_eq (u : UserRec) (s : String) :
    setAttr u "session_id" (Value.vStr s) = { u with session_id := some s } := rfl

theorem setAttr_session_none_eq (u : UserRec) :
    setAttr u "session_id" Value.vNone = { u with session_id := none } := rfl

theorem matchesCriteria_single (k : String) (v : Value) (u : UserRec) :
    matchesCriteria [(k, v)] u = decide (getAttr u k = v) := by
  simp [matchesCriteria]

/-- Reduction of `find_user_by` for a single valid criterion. -/
theorem find_user_by_single (st : DBState) (k : String) (v : Value) (hk : validAttr k = true) :
    find_user_by st [(k, v)] =
      match st.users.filter (matchesCriteria [(k, v)]) with
      | [] => Except.error DBError.noResultFound
      | [u] => Except.ok u
      | _ :: _ :: _ => Except.error DBError.invalidRequest := by
  simp [find_user_by, hk]

/-- C7: `find_user_by` fails with `NoResultFound` exactly when the
criteria mapping is non-empty, references only recognized User columns,
and no row matches; and it fails with `InvalidRequestError` whenever the
criteria mapping is empty or references an unknown column.  Being an
`Except.error` in both cases, it returns no user. -/
theorem find_user_by_failure_spec (st : DBState) (criteria : List (String × Value)) :
    (find_user_by st criteria = Except.error DBError.noResultFound ↔
      criteria ≠ [] ∧ (∀ kv ∈ criteria, validAttr kv.1 = true) ∧
        st.users.filter (matchesCriteria criteria) = []) ∧
    ((criteria = [] ∨ ∃ kv ∈ criteria, validAttr kv.1 = false) →
      find_user_by st criteria = Except.error DBError.invalidRequest) := by
  by_cases h1 : criteria.isEmpty
  · have hc : criteria = [] := by simpa using h1
    subst hc
    constructor
    · constructor
      · intro h
        simp [find_user_by] at h
      · rintro ⟨h, -, -⟩
        exact absurd rfl h
    · intro _
      simp [find_user_by]
  · have hc : criteria ≠ [] := by simpa using h1
    by_cases h2 : criteria.any (fun kv => !validAttr kv.1)
    · have hbad : ∃ kv ∈ criteria, validAttr kv.1 = false := by
        simpa using h2
      constructor
      · constructor
        · intro h
          simp only [find_user_by, h1, Bool.false_eq_true, if_false, h2, if_true] at h
          injection h with h'
          cases h'
        · rintro ⟨-, hall, -⟩
          obtain ⟨kv, hmem, hkv⟩ := hbad
          have := hall kv hmem
          rw [this] at hkv
          cases hkv
      · intro _
        simp only [find_user_by, h1, Bool.false_eq_true, if_false, h2, if_true]
    · have hall : ∀ kv ∈ criteria, validAttr kv.1 = true := by
        intro kv hkv
        by_contra hfalse
        exact h2 (List.any_eq_true.mpr ⟨kv, hkv, by simp [Bool.not_eq_true] at hfalse ⊢; exact hfalse⟩)
      constructor
      · constructor
        · intro h
          refine ⟨hc, hall, ?_⟩
          simp only [find_user_by, h1, Bool.false_eq_true, if_false, h2, if_true] at h
          revert h
          cases st.users.filter (matchesCriteria criteria) with
          | nil => intro _; rfl
          | cons a l =>
            cases l with
            | nil => intro h; cases h
            | cons b l' => intro h; cases h
        · rintro ⟨-, -, hnil⟩
          simp only [find_user_by, h1, Bool.false_eq_true, if_false, h2, if_true, hnil]
      · rintro (h | ⟨kv, hmem, hkv⟩)
        · exact absurd h hc
        · have := hall kv hmem
          rw [this] at hkv
          cases hkv

/-- C7 witness: the failure characterization applied to the one-user
store with an empty criteria mapping. -/
theorem find_user_by_failure_spec_witness :
    find_user_by exSt1 [] = Except.error DBError.invalidRequest :=
  (find_user_by_failure_spec exSt1 []).2 (Or.inl rfl)

/-- C1 counterexample: on the one-user store, `update_user` with the
mapping `{email: "evil@x", not_a_column: "z"}` raises `ValueError`
(InvalidAttribute), yet the user's `email` field has been changed to
"evil@x" — the update is not all-or-nothing. -/
theorem update_user_not_atomic_cex :
    (update_user exSt1 1
        [("email", Value.vStr "evil@x"), ("not_a_column", Value.vStr "z")]).2 =
      some DBError.valueError ∧
    ((update_user exSt1 1
        [("email", Value.vStr "evil@x"), ("not_a_column", Value.vStr "z")]).1.users.map
      UserRec.email) = ["evil@x"] := by decide

/-- C2 counterexample: on a store holding two rows with email
"dup@x.com", `find_user_by` does not return the earliest-inserted match;
`Query.one()` raises `MultipleResultsFound`, surfaced as
`InvalidRequestError`. -/
theorem find_user_by_duplicates_cex :
    exStDup.users.filter (matchesCriteria [("email", Value.vStr "dup@x.com")]) =
      [dupUser1, dupUser2] ∧
    find_user_by exStDup [("email", Value.vStr "dup@x.com")] =
      Except.error DBError.invalidRequest := by decide

/-- C2 amended: for non-empty criteria over recognized columns,
`find_user_by` returns the row when exactly one row matches; when two or
more rows match (e.g. duplicate emails admitted by the registration
race), it does not return the earliest-inserted match but fails with
`MultipleResultsFound`, surfaced as `InvalidRequestError`. -/
theorem find_user_by_multiplicity (st : DBState) (criteria : List (String × Value))
    (hne : criteria ≠ []) (hall : ∀ kv ∈ criteria, validAttr kv.1 = true) :
    (∀ u, st.users.filter (matchesCriteria criteria) = [u] →
      find_user_by st criteria = Except.ok u) ∧
    (2 ≤ (st.users.filter (matchesCriteria criteria)).length →
      find_user_by st criteria = Except.error DBError.invalidRequest) := by
  have h1 : ¬criteria.isEmpty = true := by simpa using hne
  have h2 : ¬(criteria.any fun kv => !validAttr kv.1) = true := by
    intro h
    obtain ⟨kv, hmem, hkv⟩ := List.any_eq_true.mp h
    rw [hall kv hmem] at hkv
    cases hkv
  constructor
  · intro u hu
    simp only [find_user_by, h1, Bool.false_eq_true, if_false, h2, hu]
  · intro hlen
    simp only [find_user_by, h1, Bool.false_eq_true, if_false, h2]
    revert hlen
    cases st.users.filter (matchesCriteria criteria) with
    | nil => intro h; cases h
    | cons a l =>
      cases l with
      | nil => intro h; simp at h
      | cons b l' => intro _; rfl

/-- C2 witness: the unique-match branch on the one-user store. -/
theorem find_user_by_multiplicity_witness :
    find_user_by exSt1 [("email", Value.vStr "a@x.com")] = Except.ok exUser1 :=
  (find_user_by_multiplicity exSt1 [("email", Value.vStr "a@x.com")]
    (by decide) (by decide)).1 exUser1 (by decide)

theorem applyKwargs_invalid (uid : Nat) (k : String) (v : Value) (hk : validAttr k = false) :
    ∀ (pre : List (String × Value)) (st : DBState) (post : List (String × Value)),
      (∀ kv ∈ pre, validAttr kv.1 = true) →
      applyKwargs st uid (pre ++ (k, v) :: post) =
        (pre.foldl (fun s kv => mutateUser s uid kv.1 kv.2) st, some DBError.valueError) := by
  intro pre
  induction pre with
  | nil =>
    intro st post _
    simp [applyKwargs, hk]
  | cons kv pre ih =>
    intro st post hall
    have h1 : validAttr kv.1 = true := hall kv (by simp)
    simp only [List.cons_append, applyKwargs, h1, if_true, List.foldl_cons]
    exact ih (mutateUser st uid kv.1 kv.2) post fun x hx => hall x (by simp [hx])

theorem foldl_mutate_persisted (uid : Nat) :
    ∀ (pre : List (String × Value)) (st : DBState),
      (pre.foldl (fun s kv => mutateUser s uid kv.1 kv.2) st).persisted = st.persisted := by
  intro pre
  induction pre with
  | nil => intro st; rfl
  | cons kv pre ih =>
    intro st
    simp only [List.foldl_cons]
    rw [ih]
    rfl

/-- C1 amended: when `update_user` fails with `ValueError` because a key
of `fields` is not a recognized User attribute, the commit is skipped —
the persisted state is unchanged — but the update is not all-or-nothing:
every valid key that precedes the first invalid key in the mapping has
already been applied to the session's user object. -/
theorem update_user_invalid_key_effect (st : DBState) (uid : Nat) (u : UserRec)
    (pre post : List (String × Value)) (k : String) (v : Value)
    (hfind : find_user_by st [("id", Value.vNat uid)] = Except.ok u)
    (hpre : ∀ kv ∈ pre, validAttr kv.1 = true)
    (hk : validAttr k = false) :
    update_user st uid (pre ++ (k, v) :: post) =
      (pre.foldl (fun s kv => mutateUser s u.id kv.1 kv.2) st, some DBError.valueError) ∧
    (pre.foldl (fun s kv => mutateUser s u.id kv.1 kv.2) st).persisted = st.persisted := by
  constructor
  · rw [update_user, hfind]
    exact applyKwargs_invalid u.id k v hk pre st post hpre
  · exact foldl_mutate_persisted u.id pre st

/-- C1 witness: the amended statement applied to the one-user store with
a valid `email` key followed by an invalid key. -/
theorem update_user_invalid_key_effect_witness :
    update_user exSt1 1 [("email", Value.vStr "e2"), ("bogus", Value.vStr "z")] =
      ([(("email" : String), Value.vStr "e2")].foldl
        (fun s kv => mutateUser s exUser1.id kv.1 kv.2) exSt1, some DBError.valueError) :=
  (update_user_invalid_key_effect exSt1 1 exUser1 [("email", Value.vStr "e2")] []
    "bogus" (Value.vStr "z") (by decide) (by decide) (by decide)).1

/-- C3 counterexample: `destroy_session` called with a user id that does
not exist propagates the raw store-level `NoResultFound` to its caller —
the façade does not translate it. -/
theorem destroy_session_leaks_cex :
    destroy_session emptySt 1 = (emptySt, some DBError.noResultFound) := by decide

/-- C3 amended: every façade operation except `destroy_session`
translates a store-level `NoResultFound` at the façade boundary —
`valid_login`, `create_session` and `get_user_from_session_id` surface
`false`/null, while `register_user`, `get_reset_password_token` and
`update_password` re-raise the domain `ValueError` — but
`destroy_session` called with a user id that does not exist propagates
the raw `NoResultFound` to its caller. -/
theorem facade_not_found_translation (st : DBState) (email pw sid tok npw fresh : String)
    (uid : Nat) (hf : String → String) (cp : String → String → Bool) :
    valid_login st email pw cp ≠ Except.error DBError.noResultFound ∧
    (create_session st email fresh).2 ≠ Except.error DBError.noResultFound ∧
    get_user_from_session_id st (some sid) ≠ Except.error DBError.noResultFound ∧
    (register_user st email pw hf).2 ≠ Except.error DBError.noResultFound ∧
    (get_reset_password_token st email fresh).2 ≠ Except.error DBError.noResultFound ∧
    (update_password st tok npw hf).2 ≠ Except.error DBError.noResultFound ∧
    (st.users.filter (matchesCriteria [("id", Value.vNat uid)]) = [] →
      destroy_session st uid = (st, some DBError.noResultFound)) := by
  refine ⟨?_, ?_, ?_, ?_, ?_, ?_, ?_⟩
  · cases hfe : find_user_by st [("email", Value.vStr email)] with
    | ok u => simp [valid_login, hfe]
    | error e => cases e <;> simp [valid_login, hfe]
  · cases hfe : find_user_by st [("email", Value.vStr email)] with
    | ok u =>
      cases hud : (update_user st u.id [("session_id", Value.vStr fresh)]).2 with
      | none => simp [create_session, hfe, hud]
      | some e => cases e <;> simp [create_session, hfe, hud]
    | error e => cases e <;> simp [create_session, hfe]
  · cases hfe : find_user_by st [("session_id", Value.vStr sid)] with
    | ok u => simp [get_user_from_session_id, hfe]
    | error e => cases e <;> simp [get_user_from_session_id, hfe]
  · cases hfe : find_user_by st [("email", Value.vStr email)] with
    | ok u => simp [register_user, hfe]
    | error e => cases e <;> simp [register_user, hfe]
  · cases hfe : find_user_by st [("email", Value.vStr email)] with
    | ok u =>
      cases hud : (update_user st u.id [("reset_token", Value.vStr fresh)]).2 with
      | none => simp [get_reset_password_token, hfe, hud]
      | some e => cases e <;> simp [get_reset_password_token, hfe, hud]
    | error e => cases e <;> simp [get_reset_password_token, hfe]
  · cases hfe : find_user_by st [("reset_token", Value.vStr tok)] with
    | ok u =>
      cases hud : (update_user st u.id
          [("hashed_password", Value.vStr (hf npw)), ("reset_token", Value.vNone)]).2 with
      | none => simp [update_password, hfe, hud]
      | some e => cases e <;> simp [update_password, hfe, hud]
    | error e => cases e <;> simp [update_password, hfe]
  · intro hnil
    rw [destroy_session, update_user, find_user_by_single _ _ _ (by decide), hnil]

/-- C3 witness: the destroy_session clause of the amended statement,
applied to the empty store. -/
theorem facade_not_found_translation_witness :
    destroy_session emptySt 5 = (emptySt, some DBError.noResultFound) :=
  (facade_not_found_translation emptySt "e" "p" "s" "t" "n" "f" 5 (fun s => s)
    (fun _ _ => false)).2.2.2.2.2.2 (by decide)

/-- C4: on a store whose rows matching email `E` are exactly `[u]`,
`register_user` with `E` fails with `ValueError` (AlreadyExists) and the
store still holds exactly that one row for `E`; on a store with no row
for `E`, it inserts and returns a fresh row whose `hashed_password` is
the hasher applied to the password. -/
theorem register_user_spec (st : DBState) (E pw : String) (hashFn : String → String) :
    (∀ u, st.users.filter (matchesCriteria [("email", Value.vStr E)]) = [u] →
      register_user st E pw hashFn = (st, Except.error DBError.valueError) ∧
      (register_user st E pw hashFn).1.users.filter
        (matchesCriteria [("email", Value.vStr E)]) = [u]) ∧
    (st.users.filter (matchesCriteria [("email", Value.vStr E)]) = [] →
      register_user st E pw hashFn =
        ({ users := st.users ++ [freshUser st E (hashFn pw)]
           persisted := st.users ++ [freshUser st E (hashFn pw)] },
         Except.ok (freshUser st E (hashFn pw))) ∧
      (freshUser st E (hashFn pw)).email = E ∧
      (freshUser st E (hashFn pw)).hashed_password = hashFn pw) := by
  constructor
  · intro u hu
    have hfe : find_user_by st [("email", Value.vStr E)] = Except.ok u := by
      rw [find_user_by_single _ _ _ (by decide), hu]
    constructor
    · simp only [register_user, hfe]
    · simp only [register_user, hfe]
      exact hu
  · intro hnil
    have hfe : find_user_by st [("email", Value.vStr E)] =
        Except.error DBError.noResultFound := by
      rw [find_user_by_single _ _ _ (by decide), hnil]
    refine ⟨?_, rfl, rfl⟩
    simp only [register_user, hfe]
    rfl

/-- C4 witness: registering the already-present email on the one-user
store fails with `ValueError`. -/
theorem register_user_spec_witness :
    register_user exSt1 "a@x.com" "pw" (fun s => String.append "H" s) =
      (exSt1, Except.error DBError.valueError) :=
  ((register_user_spec exSt1 "a@x.com" "pw" (fun s => String.append "H" s)).1
    exUser1 (by decide)).1

theorem filter_singleton_mem {p : UserRec → Bool} {l : List UserRec} {u x : UserRec}
    (hf : l.filter p = [u]) (hx : x ∈ l) (hpx : p x = true) : x = u := by
  have : x ∈ l.filter p := List.mem_filter.mpr ⟨hx, hpx⟩
  rw [hf] at this
  simpa using this

theorem update_user_two_fields (st : DBState) (u : UserRec) (h : String)
    (hid : st.users.filter (matchesCriteria [("id", Value.vNat u.id)]) = [u]) :
    update_user st u.id [("hashed_password", Value.vStr h), ("reset_token", Value.vNone)] =
      (passwordUpdated st u.id h, none) := by
  have hfind : find_user_by st [("id", Value.vNat u.id)] = Except.ok u := by
    rw [find_user_by_single _ _ _ (by decide), hid]
  rw [update_user, hfind]
  have hv1 : validAttr "hashed_password" = true := by decide
  have hv2 : validAttr "reset_token" = true := by decide
  simp only [applyKwargs, hv1, hv2, if_true]
  have key : ∀ l : List UserRec,
      (l.map fun y => if y.id = u.id then setAttr y "hashed_password" (Value.vStr h) else y).map
          (fun y => if y.id = u.id then setAttr y "reset_token" Value.vNone else y) =
        l.map fun x =>
          if x.id = u.id then { x with hashed_password := h, reset_token := none } else x := by
    intro l
    induction l with
    | nil => rfl
    | cons a l ih =>
      simp only [List.map_cons, ih, List.cons.injEq, and_true]
      by_cases ha : a.id = u.id
      · simp only [ha, if_true, setAttr_hashed_eq]
        have hb : ({ a with hashed_password := h } : UserRec).id = u.id := ha
        simp only [hb, if_true, setAttr_reset_none_eq]
      · simp [ha]
  simp only [commit, mutateUser, passwordUpdated, key]

theorem update_user_session_field (st : DBState) (u : UserRec) (sid : String)
    (hid : st.users.filter (matchesCriteria [("id", Value.vNat u.id)]) = [u]) :
    update_user st u.id [("session_id", Value.vStr sid)] = (sessionSet st u.id sid, none) := by
  have hfind : find_user_by st [("id", Value.vNat u.id)] = Except.ok u := by
    rw [find_user_by_single _ _ _ (by decide), hid]
  rw [update_user, hfind]
  have hv1 : validAttr "session_id" = true := by decide
  simp only [applyKwargs, hv1, if_true]
  have key : ∀ l : List UserRec,
      (l.map fun y => if y.id = u.id then setAttr y "session_id" (Value.vStr sid) else y) =
        l.map fun x => if x.id = u.id then { x with session_id := some sid } else x := by
    intro l
    induction l with
    | nil => rfl
    | cons a l ih =>
      simp only [List.map_cons, ih, List.cons.injEq, and_true]
      by_cases ha : a.id = u.id
      · simp only [ha, if_true, setAttr_session_some_eq]
      · simp [ha]
  simp only [commit, mutateUser, sessionSet, key]

theorem passwordUpdated_no_token (st : DBState) (T : String) (h : String) (u : UserRec)
    (htok : st.users.filter (matchesCriteria [("reset_token", Value.vStr T)]) = [u]) :
    (passwordUpdated st u.id h).users.filter
      (matchesCriteria [("reset_token", Value.vStr T)]) = [] := by
  rw [List.filter_eq_nil_iff]
  intro y hy
  obtain ⟨x, hx, rfl⟩ := List.mem_map.mp hy
  by_cases hxid : x.id = u.id
  · simp only [hxid, if_true, matchesCriteria_single]
    rw [getAttr_reset_eq]
    simp
  · simp only [hxid, if_false]
    intro hm
    exact hxid (congrArg UserRec.id (filter_singleton_mem htok hx hm))

/-- C5: for a user `u` holding the outstanding reset token `T` (and `T`
held by no other user), `update_password` with `T` persists the hash of
the new password and clears `reset_token` in the same committed update,
so a second call with the same token `T` fails with `ValueError` and
changes nothing: the token is consumable exactly once. -/
theorem update_password_consumes_token (st : DBState) (T pw pw2 : String)
    (hashFn hashFn2 : String → String) (u : UserRec)
    (htok : st.users.filter (matchesCriteria [("reset_token", Value.vStr T)]) = [u])
    (hid : st.users.filter (matchesCriteria [("id", Value.vNat u.id)]) = [u]) :
    update_password st T pw hashFn = (passwordUpdated st u.id (hashFn pw), Except.ok ()) ∧
    update_password (passwordUpdated st u.id (hashFn pw)) T pw2 hashFn2 =
      (passwordUpdated st u.id (hashFn pw), Except.error DBError.valueError) := by
  have hfe : find_user_by st [("reset_token", Value.vStr T)] = Except.ok u := by
    rw [find_user_by_single _ _ _ (by decide), htok]
  have hupd := update_user_two_fields st u (hashFn pw) hid
  constructor
  · simp only [update_password, hfe, hupd]
  · have hgone := passwordUpdated_no_token st T (hashFn pw) u htok
    have hfe2 : find_user_by (passwordUpdated st u.id (hashFn pw))
        [("reset_token", Value.vStr T)] = Except.error DBError.noResultFound := by
      rw [find_user_by_single _ _ _ (by decide), hgone]
    simp only [update_password, hfe2]

/-- C5 witness: the single-use reset flow on the token-holding store. -/
theorem update_password_consumes_token_witness :
    update_password exStTok "TOK" "new" (fun s => String.append "H" s) =
      (passwordUpdated exStTok tokUser.id (String.append "H" "new"), Except.ok ()) ∧
    update_password (passwordUpdated exStTok tokUser.id (String.append "H" "new")) "TOK" "z"
        (fun s => s) =
      (passwordUpdated exStTok tokUser.id (String.append "H" "new"),
        Except.error DBError.valueError) :=
  update_password_consumes_token exStTok "TOK" "new" "z" (fun s => String.append "H" s)
    (fun s => s) tokUser (by decide) (by decide)

/-- C6: `create_session` with an email matching no user returns null
(`Except.ok none`, not an error) and leaves every row of the store
unchanged; with an email matching exactly the user `u` (whose id is
unambiguous), it overwrites that user's `session_id` with the fresh
opaque id, commits, and returns that id. -/
theorem create_session_spec (st : DBState) (E fresh : String) :
    (st.users.filter (matchesCriteria [("email", Value.vStr E)]) = [] →
      create_session st E fresh = (st, Except.ok none)) ∧
    (∀ u, st.users.filter (matchesCriteria [("email", Value.vStr E)]) = [u] →
      st.users.filter (matchesCriteria [("id", Value.vNat u.id)]) = [u] →
      create_session st E fresh = (sessionSet st u.id fresh, Except.ok (some fresh))) := by
  constructor
  · intro hnil
    have hfe : find_user_by st [("email", Value.vStr E)] =
        Except.error DBError.noResultFound := by
      rw [find_user_by_single _ _ _ (by decide), hnil]
    simp only [create_session, hfe]
  · intro u hu hid
    have hfe : find_user_by st [("email", Value.vStr E)] = Except.ok u := by
      rw [find_user_by_single _ _ _ (by decide), hu]
    have hupd := update_user_session_field st u fresh hid
    simp only [create_session, hfe, hupd]

/-- C6 witness: both branches on the one-user store — an unknown email
yields null with the store untouched, and the known email installs the
fresh session id. -/
theorem create_session_spec_witness :
    create_session exSt1 "nobody@x" "FRESH" = (exSt1, Except.ok none) ∧
    create_session exSt1 "a@x.com" "FRESH" =
      (sessionSet exSt1 exUser1.id "FRESH", Except.ok (some "FRESH")) :=
  ⟨(create_session_spec exSt1 "nobody@x" "FRESH").1 (by decide),
   (create_session_spec exSt1 "a@x.com" "FRESH").2 exUser1 (by decide) (by decide)⟩

/-- C10: the outcome of PUT /reset_password depends only on the
`reset_token` and `new_password` form fields, never on `email`: the
resulting store state and the HTTP status are identical for any two
submitted emails, and a 200 response echoes the client-supplied email
verbatim (even when it is not the email of the user whose password
changed). -/
theorem app_update_password_email_independent (st : DBState) (e1 e2 t p : String)
    (hashFn : String → String) :
    (app_update_password st e1 t p hashFn).1 = (app_update_password st e2 t p hashFn).1 ∧
    httpStatus (app_update_password st e1 t p hashFn).2 =
      httpStatus (app_update_password st e2 t p hashFn).2 ∧
    (∀ body, (app_update_password st e1 t p hashFn).2 = HttpResult.ok200 body →
      body = [("email", e1), ("message", "Password updated")]) := by
  cases hr : (update_password st t p hashFn).2 with
  | ok a => simp [app_update_password, hr, httpStatus]
  | error e => cases e <;> simp [app_update_password, hr, httpStatus]

/-- C10 witness: on the token-holding store, two different submitted
emails produce the same store state, and the 200 body echoes the
submitted email. -/
theorem app_update_password_email_independent_witness :
    (app_update_password exStTok "x@y" "TOK" "np" (fun s => String.append "H" s)).1 =
      (app_update_password exStTok "z@w" "TOK" "np" (fun s => String.append "H" s)).1 ∧
    ([(("email" : String), ("x@y" : String)), ("message", "Password updated")] =
      [("email", "x@y"), ("message", "Password updated")]) :=
  ⟨(app_update_password_email_independent exStTok "x@y" "z@w" "TOK" "np"
      (fun s => String.append "H" s)).1,
   (app_update_password_email_independent exStTok "x@y" "z@w" "TOK" "np"
      (fun s => String.append "H" s)).2.2
     [("email", "x@y"), ("message", "Password updated")] (by decide)⟩

end AuthService

/-- C8: `filter_datum ["password","ssn"] "***"
"name=Bob;ssn=000-00-0000;password=x;" ";"` replaces each listed field's
value by the mask up to the next separator, preserves the field name and
the separator, leaves the unlisted `name` field untouched, and yields
exactly `"name=Bob;ssn=***;password=***;"`. -/
theorem filter_datum_example :
    FilteredLogger.filter_datum ["password", "ssn"] "***"
      "name=Bob;ssn=000-00-0000;password=x;" ";" = "name=Bob;ssn=***;password=***;" := by
  decide

/-- C9 counterexample: the order of the field list can change the output
of `filter_datum`: with mask `"b=q;"` (which itself contains a
`field=value;` pattern), the field lists `["a","b"]` and `["b","a"]`
disagree on the message `"a=1;"`. -/
theorem filter_datum_order_cex :
    FilteredLogger.filter_datum ["a", "b"] "b=q;" "a=1;" ";" ≠
      FilteredLogger.filter_datum ["b", "a"] "b=q;" "a=1;" ";" := by decide

namespace FilteredLogger

theorem contains_iff (l : List Char) (a : Char) : l.contains a = true ↔ a ∈ l :=
  List.elem_iff

theorem list_perm_any (l1 l2 : List (List Char)) (h : l1.Perm l2) (p : List Char → Bool) :
    l1.any p = l2.any p := by
  cases h1 : l1.any p with
  | true =>
    obtain ⟨x, hx, hpx⟩ := List.any_eq_true.mp h1
    exact (List.any_eq_true.mpr ⟨x, h.mem_iff.mp hx, hpx⟩).symm
  | false =>
    cases h2 : l2.any p with
    | false => rfl
    | true =>
      obtain ⟨x, hx, hpx⟩ := List.any_eq_true.mp h2
      have h3 := List.any_eq_true.mpr ⟨x, h.mem_iff.mpr hx, hpx⟩
      rw [h1] at h3
      cases h3

/-- A `field=` pattern cannot match while the scan stands inside a region
free of `=` that is terminated by the separator: the pattern's final `=`
would have to land inside the region, on the separator, or past it —
each impossible. -/
theorem blocked (c : Char) (hc : c ≠ '=') :
    ∀ (l2 f l3 : List Char), '=' ∉ l2 → c ∉ f → ¬(f ++ ['=']) <+: (l2 ++ c :: l3) := by
  intro l2
  induction l2 with
  | nil =>
    intro f l3 _ hcf h
    cases f with
    | nil =>
      rw [List.nil_append, List.nil_append, List.cons_prefix_cons] at h
      exact hc h.1.symm
    | cons a f' =>
      rw [List.cons_append, List.nil_append, List.cons_prefix_cons] at h
      exact hcf (by rw [h.1]; exact List.mem_cons_self c f')
  | cons b l2' ih =>
    intro f l3 heq hcf h
    cases f with
    | nil =>
      rw [List.nil_append, List.cons_append, List.cons_prefix_cons] at h
      exact heq (by rw [h.1]; exact List.mem_cons_self b l2')
    | cons a f' =>
      rw [List.cons_append, List.cons_append, List.cons_prefix_cons] at h
      exact ih f' l3 (fun hm => heq (List.mem_cons_of_mem b hm))
        (fun hm => hcf (List.mem_cons_of_mem a hm)) h.2

/-- The non-greedy value scan succeeds on a newline-free value closed by
the separator, consuming exactly up to the first separator. -/
theorem findValue_hit (c : Char) :
    ∀ (v rest : List Char), c ∉ v → '\n' ∉ v →
      findValue [c] (v ++ c :: rest) = some (v, rest) := by
  intro v
  induction v with
  | nil =>
    intro rest _ _
    have hp : [c].isPrefixOf (c :: rest) = true := by
      rw [List.isPrefixOf_iff_prefix, List.cons_prefix_cons]
      exact ⟨rfl, List.nil_prefix⟩
    simp [findValue, hp]
  | cons x v' ih =>
    intro rest hcv hnv
    have hxc : ¬([c].isPrefixOf (x :: (v' ++ c :: rest)) = true) := by
      rw [List.isPrefixOf_iff_prefix, List.cons_prefix_cons]
      rintro ⟨h1, -⟩
      exact hcv (by rw [h1]; exact List.mem_cons_self x v')
    have hxn : ¬(x = '\n') := fun h => hnv (by rw [← h]; exact List.mem_cons_self x v')
    have hrec := ih rest (fun h => hcv (List.mem_cons_of_mem _ h))
      (fun h => hnv (List.mem_cons_of_mem _ h))
    simp only [List.cons_append, findValue, List.append_eq, hxc, Bool.false_eq_true,
      if_false, hxn, hrec]

/-- The non-greedy value scan fails when a newline stands before the
first separator. -/
theorem findValue_nl (c : Char) :
    ∀ (v rest : List Char), c ∉ v → '\n' ∈ v →
      findValue [c] (v ++ c :: rest) = none := by
  intro v
  induction v with
  | nil =>
    intro rest _ h
    simp at h
  | cons x v' ih =>
    intro rest hcv hnv
    have hxc : ¬([c].isPrefixOf (x :: (v' ++ c :: rest)) = true) := by
      rw [List.isPrefixOf_iff_prefix, List.cons_prefix_cons]
      rintro ⟨h1, -⟩
      exact hcv (by rw [h1]; exact List.mem_cons_self x v')
    by_cases hx : x = '\n'
    · subst hx
      simp only [List.cons_append, findValue, List.append_eq, hxc, Bool.false_eq_true,
      if_false, if_true]
    · have hmem : '\n' ∈ v' := by
        cases List.mem_cons.mp hnv with
        | inl h => exact absurd h.symm hx
        | inr h => exact h
      have hrec := ih rest (fun h => hcv (List.mem_cons_of_mem _ h)) hmem
      simp only [List.cons_append, findValue, List.append_eq, hxc, Bool.false_eq_true,
      if_false, hx, hrec]

theorem scan_step (f repl sep : List Char) (x : Char) (xs : List Char)
    (h : ¬(f ++ ['=']).isPrefixOf (x :: xs) = true) :
    redactScan f repl sep (x :: xs) = x :: redactScan f repl sep xs := by
  rw [redactScan_cons]
  cases hfv : findValue sep ((x :: xs).drop (f.length + 1)) with
  | none => rfl
  | some p => simp [h]

theorem scan_fire (f repl sep : List Char) (x : Char) (xs : List Char)
    (p : List Char × List Char)
    (hpre : (f ++ ['=']).isPrefixOf (x :: xs) = true)
    (hfv : findValue sep ((x :: xs).drop (f.length + 1)) = some p) :
    redactScan f repl sep (x :: xs) = repl ++ redactScan f repl sep p.2 := by
  rw [redactScan_cons, hfv]
  simp [hpre]

theorem scan_stuck (f repl sep : List Char) (x : Char) (xs : List Char)
    (hfv : findValue sep ((x :: xs).drop (f.length + 1)) = none) :
    redactScan f repl sep (x :: xs) = x :: redactScan f repl sep xs := by
  rw [redactScan_cons, hfv]

/-- The scan passes untouched over an `=`-free region closed by the
separator. -/
theorem scan_through (f repl : List Char) (c : Char) (hc : c ≠ '=') (hcf : c ∉ f) :
    ∀ (l2 rest : List Char), '=' ∉ l2 →
      redactScan f repl [c] (l2 ++ c :: rest) = l2 ++ c :: redactScan f repl [c] rest := by
  intro l2
  induction l2 with
  | nil =>
    intro rest _
    rw [List.nil_append, scan_step, List.nil_append]
    intro h
    exact blocked c hc [] f rest (by simp) hcf
      (by simpa using List.isPrefixOf_iff_prefix.mp h)
  | cons b l2' ih =>
    intro rest heq
    rw [List.cons_append, scan_step, ih rest (fun hm => heq (List.mem_cons_of_mem b hm)),
      List.cons_append]
    intro h
    exact blocked c hc (b :: l2') f rest heq hcf
      (by simpa using List.isPrefixOf_iff_prefix.mp h)

end FilteredLogger

namespace FilteredLogger

theorem isSuffixOf_self (f : List Char) : f.isSuffixOf f = true :=
  List.isSuffixOf_iff_suffix.mpr (List.suffix_refl f)

theorem isSuffixOf_nil_iff (f : List Char) : f.isSuffixOf ([] : List Char) = true ↔ f = [] := by
  rw [List.isSuffixOf_iff_suffix, List.suffix_nil]

theorem isSuffixOf_longer (b : Char) (k' : List Char) : (b :: k').isSuffixOf k' = false := by
  cases h : (b :: k').isSuffixOf k' with
  | false => rfl
  | true =>
    have h2 := List.IsSuffix.length_le (List.isSuffixOf_iff_suffix.mp h)
    simp at h2

theorem isSuffixOf_cons_ne (f : List Char) (b : Char) (k' : List Char) (hne : f ≠ b :: k') :
    f.isSuffixOf (b :: k') = f.isSuffixOf k' := by
  rw [Bool.eq_iff_iff, List.isSuffixOf_iff_suffix, List.isSuffixOf_iff_suffix,
    List.suffix_cons_iff]
  constructor
  · rintro (h | h)
    · exact absurd h hne
    · exact h
  · exact Or.inr

/-- Where can the pattern `field=` be prefix-aligned at the very start of
a `key=value<sep>` block?  Exactly when the field equals the whole key. -/
theorem align (c : Char) (hc : c ≠ '=') :
    ∀ (k f v t : List Char), '=' ∉ k → '=' ∉ v → c ∉ f →
      ((f ++ ['=']) <+: (k ++ '=' :: (v ++ c :: t)) ↔ f = k) := by
  intro k
  induction k with
  | nil =>
    intro f v t _ hv hcf
    constructor
    · intro h
      cases f with
      | nil => rfl
      | cons a f' =>
        rw [List.cons_append, List.nil_append, List.cons_prefix_cons] at h
        exact absurd h.2 (blocked c hc v f' t hv (fun hm => hcf (List.mem_cons_of_mem a hm)))
    · rintro rfl
      rw [List.nil_append, List.nil_append, List.cons_prefix_cons]
      exact ⟨rfl, List.nil_prefix⟩
  | cons b k' ih =>
    intro f v t hk hv hcf
    constructor
    · intro h
      cases f with
      | nil =>
        rw [List.nil_append, List.cons_append, List.cons_prefix_cons] at h
        exact (hk (by rw [h.1]; exact List.mem_cons_self b k')).elim
      | cons a f' =>
        rw [List.cons_append, List.cons_append, List.cons_prefix_cons] at h
        have h2 := (ih f' v t (fun hm => hk (List.mem_cons_of_mem b hm)) hv
          (fun hm => hcf (List.mem_cons_of_mem a hm))).mp h.2
        rw [h.1, h2]
    · rintro rfl
      have heq : (b :: k') ++ '=' :: (v ++ c :: t) = ((b :: k') ++ ['=']) ++ (v ++ c :: t) := by
        simp
      rw [heq]
      exact List.prefix_append _ _

/-- The scan across one full `key=value<sep>` block: the unanchored
pattern fires exactly when the field lines up with the end of the key
(it equals the key or a suffix of it) and the value is newline-free;
the match then covers the value up to the separator and the scan resumes
after the block. -/
theorem scan_pair (f red : List Char) (c : Char) (hc : c ≠ '=') (hcf : c ∉ f) :
    ∀ (k v rest : List Char), '=' ∉ k → '=' ∉ v → c ∉ v →
      redactScan f (f ++ '=' :: (red ++ [c])) [c] (k ++ '=' :: (v ++ c :: rest)) =
        (if f.isSuffixOf k && !v.contains '\n'
         then k ++ '=' :: (red ++ c :: redactScan f (f ++ '=' :: (red ++ [c])) [c] rest)
         else k ++ '=' :: (v ++ c :: redactScan f (f ++ '=' :: (red ++ [c])) [c] rest)) := by
  intro k
  induction k with
  | nil =>
    intro v rest hk hv hcv
    rw [List.nil_append]
    by_cases hf : f = []
    · subst hf
      have hpre : (([] : List Char) ++ ['=']).isPrefixOf ('=' :: (v ++ c :: rest)) = true := by
        rw [List.nil_append, List.isPrefixOf_iff_prefix, List.cons_prefix_cons]
        exact ⟨rfl, List.nil_prefix⟩
      by_cases hnl : '\n' ∈ v
      · rw [scan_stuck ([] : List Char) _ [c] '=' (v ++ c :: rest)
            (findValue_nl c v rest hcv hnl),
          scan_through ([] : List Char) _ c hc hcf v rest hv]
        have hcond : v.contains '\n' = true := (contains_iff v '\n').mpr hnl
        simp only [isSuffixOf_self, hcond, Bool.not_true, Bool.and_false, Bool.false_eq_true,
          if_false, List.nil_append]
      · rw [scan_fire ([] : List Char) _ [c] '=' (v ++ c :: rest) (v, rest) hpre
            (findValue_hit c v rest hcv hnl)]
        have hcond : v.contains '\n' = false := by
          cases h : v.contains '\n' with
          | false => rfl
          | true => exact absurd ((contains_iff v '\n').mp h) hnl
        simp only [isSuffixOf_self, hcond, Bool.not_false, Bool.and_true, if_true,
          List.nil_append, List.cons_append, List.append_assoc, List.singleton_append]
    · have hpre : ¬((f ++ ['=']).isPrefixOf ('=' :: (v ++ c :: rest)) = true) := by
        intro h
        have h2 := List.isPrefixOf_iff_prefix.mp h
        have h3 : (f ++ ['=']) <+: (([] : List Char) ++ '=' :: (v ++ c :: rest)) := by
          simpa using h2
        exact hf ((align c hc [] f v rest (by simp) hv hcf).mp h3)
      rw [scan_step f _ [c] '=' (v ++ c :: rest) hpre,
        scan_through f _ c hc hcf v rest hv]
      have hcond : f.isSuffixOf ([] : List Char) = false := by
        cases h : f.isSuffixOf ([] : List Char) with
        | false => rfl
        | true => exact absurd ((isSuffixOf_nil_iff f).mp h) hf
      simp only [hcond, Bool.false_and, Bool.false_eq_true, if_false, List.nil_append]
  | cons b k' ih =>
    intro v rest hk hv hcv
    have hk' : '=' ∉ k' := fun hm => hk (List.mem_cons_of_mem b hm)
    by_cases hfk : f = b :: k'
    · subst hfk
      have hpre : (((b :: k') ++ ['=']).isPrefixOf ((b :: k') ++ '=' :: (v ++ c :: rest))) =
          true := by
        rw [List.isPrefixOf_iff_prefix]
        exact (align c hc (b :: k') (b :: k') v rest hk hv hcf).mpr rfl
      have hdrop : ((b :: k') ++ '=' :: (v ++ c :: rest)).drop ((b :: k').length + 1) =
          v ++ c :: rest := by
        have heq : (b :: k') ++ '=' :: (v ++ c :: rest) =
            ((b :: k') ++ ['=']) ++ (v ++ c :: rest) := by simp
        rw [heq]
        exact List.drop_left' (by simp)
      by_cases hnl : '\n' ∈ v
      · have hfv : findValue [c]
            (((b :: k') ++ '=' :: (v ++ c :: rest)).drop ((b :: k').length + 1)) = none := by
          rw [hdrop]
          exact findValue_nl c v rest hcv hnl
        show redactScan (b :: k') ((b :: k') ++ '=' :: (red ++ [c])) [c]
            (b :: (k' ++ '=' :: (v ++ c :: rest))) = _
        rw [scan_stuck (b :: k') _ [c] b (k' ++ '=' :: (v ++ c :: rest)) hfv,
          ih v rest hk' hv hcv]
        have hsf : (b :: k').isSuffixOf k' = false := isSuffixOf_longer b k'
        have hcond : v.contains '\n' = true := (contains_iff v '\n').mpr hnl
        simp only [hsf, hcond, Bool.not_true, Bool.and_false, Bool.false_and,
          Bool.false_eq_true, if_false, List.cons_append]
      · have hfv : findValue [c]
            (((b :: k') ++ '=' :: (v ++ c :: rest)).drop ((b :: k').length + 1)) =
            some (v, rest) := by
          rw [hdrop]
          exact findValue_hit c v rest hcv hnl
        show redactScan (b :: k') ((b :: k') ++ '=' :: (red ++ [c])) [c]
            (b :: (k' ++ '=' :: (v ++ c :: rest))) = _
        rw [scan_fire (b :: k') _ [c] b (k' ++ '=' :: (v ++ c :: rest))
          (v, rest) hpre hfv]
        have hcond : v.contains '\n' = false := by
          cases h : v.contains '\n' with
          | false => rfl
          | true => exact absurd ((contains_iff v '\n').mp h) hnl
        simp only [isSuffixOf_self, hcond, Bool.not_false, Bool.and_true, if_true,
          List.cons_append, List.append_assoc, List.singleton_append, List.nil_append]
    · have hpre : ¬((f ++ ['=']).isPrefixOf (b :: (k' ++ '=' :: (v ++ c :: rest))) = true) := by
        intro h
        have h2 : (f ++ ['=']) <+: ((b :: k') ++ '=' :: (v ++ c :: rest)) := by
          rw [List.cons_append]
          exact List.isPrefixOf_iff_prefix.mp h
        exact hfk ((align c hc (b :: k') f v rest hk hv hcf).mp h2)
      rw [List.cons_append, scan_step f _ [c] b (k' ++ '=' :: (v ++ c :: rest)) hpre,
        ih v rest hk' hv hcv]
      have hsx : f.isSuffixOf (b :: k') = f.isSuffixOf k' := isSuffixOf_cons_ne f b k' hfk
      cases hcnd : (f.isSuffixOf k' && !v.contains '\n') with
      | true =>
        have hcnd2 : (f.isSuffixOf (b :: k') && !v.contains '\n') = true := by
          rw [hsx]
          exact hcnd
        simp only [hcnd, hcnd2, if_true, List.cons_append]
      | false =>
        have hcnd2 : (f.isSuffixOf (b :: k') && !v.contains '\n') = false := by
          rw [hsx]
          exact hcnd
        simp only [hcnd, hcnd2, Bool.false_eq_true, if_false, List.cons_append]

end FilteredLogger

namespace FilteredLogger

/-- One substitution pass over a rendered pair list acts on each pair
independently. -/
theorem subOne_render (f red : List Char) (c : Char) (hc : c ≠ '=') (hcf : c ∉ f) :
    ∀ ps : List (List Char × List Char),
      (∀ p ∈ ps, '=' ∉ p.1 ∧ '=' ∉ p.2 ∧ c ∉ p.2) →
      subOne f red [c] (renderPairs c ps) = renderPairs c (ps.map (pairRedact f red)) := by
  intro ps
  induction ps with
  | nil =>
    intro _
    show redactScan f (f ++ '=' :: (red ++ [c])) [c] [] = _
    rw [redactScan_nil]
    rfl
  | cons p ps ih =>
    intro hps
    obtain ⟨hk, hv, hcv⟩ := hps p (List.mem_cons_self p ps)
    have hrest := fun q hq => hps q (List.mem_cons_of_mem p hq)
    have ihr : redactScan f (f ++ '=' :: (red ++ [c])) [c] (renderPairs c ps) =
        renderPairs c (ps.map (pairRedact f red)) := ih hrest
    show redactScan f (f ++ '=' :: (red ++ [c])) [c]
        (p.1 ++ '=' :: (p.2 ++ c :: renderPairs c ps)) = _
    rw [scan_pair f red c hc hcf p.1 p.2 (renderPairs c ps) hk hv hcv, ihr]
    cases hcond : (f.isSuffixOf p.1 && !p.2.contains '\n') with
    | true =>
      simp only [if_true, List.map_cons, renderPairs, pairRedact, hcond]
    | false =>
      simp only [Bool.false_eq_true, if_false, List.map_cons, renderPairs, pairRedact, hcond]

theorem pairRedact_adm (f red : List Char) (c : Char) (p : List Char × List Char)
    (hred1 : '=' ∉ red) (hred2 : c ∉ red)
    (hp : '=' ∉ p.1 ∧ '=' ∉ p.2 ∧ c ∉ p.2) :
    '=' ∉ (pairRedact f red p).1 ∧ '=' ∉ (pairRedact f red p).2 ∧ c ∉ (pairRedact f red p).2 := by
  by_cases hcond : (f.isSuffixOf p.1 && !p.2.contains '\n') = true
  · simp only [pairRedact, hcond, if_true]
    exact ⟨hp.1, hred1, hred2⟩
  · rw [Bool.not_eq_true] at hcond
    simp only [pairRedact, hcond, Bool.false_eq_true, if_false]
    exact hp

theorem foldl_subOne_render (red : List Char) (c : Char) (hc : c ≠ '=')
    (hred1 : '=' ∉ red) (hred2 : c ∉ red) :
    ∀ (fs : List (List Char)) (ps : List (List Char × List Char)),
      (∀ f ∈ fs, c ∉ f) →
      (∀ p ∈ ps, '=' ∉ p.1 ∧ '=' ∉ p.2 ∧ c ∉ p.2) →
      fs.foldl (fun m f => subOne f red [c] m) (renderPairs c ps) =
        renderPairs c (ps.map (pairApply red fs)) := by
  intro fs
  induction fs with
  | nil =>
    intro ps _ _
    rw [List.foldl_nil, @List.map_id'' _ (pairApply red []) (fun p => rfl) ps]
  | cons f fs ih =>
    intro ps hfs hps
    have hadm : ∀ q ∈ ps.map (pairRedact f red), '=' ∉ q.1 ∧ '=' ∉ q.2 ∧ c ∉ q.2 := by
      intro q hq
      obtain ⟨p, hp, rfl⟩ := List.mem_map.mp hq
      exact pairRedact_adm f red c p hred1 hred2 (hps p hp)
    rw [List.foldl_cons, subOne_render f red c hc (hfs f (List.mem_cons_self f fs)) ps hps,
      ih (ps.map (pairRedact f red)) (fun g hg => hfs g (List.mem_cons_of_mem f hg)) hadm,
      List.map_map]
    rfl

theorem pairApply_red_stable (red : List Char) (fs : List (List Char)) (k : List Char) :
    pairApply red fs (k, red) = (k, red) := by
  induction fs with
  | nil => rfl
  | cons f fs ih =>
    show pairApply red fs (pairRedact f red (k, red)) = (k, red)
    have hstep : pairRedact f red (k, red) = (k, red) := by
      unfold pairRedact
      split
      · rfl
      · rfl
    rw [hstep, ih]

/-- The action of a whole field list on one pair only depends on whether
some field lines up with the end of the key. -/
theorem pairApply_eq (red : List Char) :
    ∀ (fs : List (List Char)) (k v : List Char),
      pairApply red fs (k, v) =
        (if (fs.any fun f => f.isSuffixOf k) && !v.contains '\n' then (k, red) else (k, v)) := by
  intro fs
  induction fs with
  | nil =>
    intro k v
    simp only [pairApply, List.foldl_nil, List.any_nil, Bool.false_and, Bool.false_eq_true,
      if_false]
  | cons f fs ih =>
    intro k v
    show pairApply red fs (pairRedact f red (k, v)) = _
    by_cases hsf : f.isSuffixOf k = true
    · by_cases hnl : v.contains '\n' = true
      · have hstep : pairRedact f red (k, v) = (k, v) := by
          simp only [pairRedact, hnl, Bool.not_true, Bool.and_false, Bool.false_eq_true,
            if_false]
        rw [hstep, ih]
        simp only [hnl, Bool.not_true, Bool.and_false, Bool.false_eq_true, if_false]
      · rw [Bool.not_eq_true] at hnl
        have hstep : pairRedact f red (k, v) = (k, red) := by
          simp only [pairRedact, hsf, hnl, Bool.not_false, Bool.and_true, if_true]
        rw [hstep, pairApply_red_stable]
        simp only [List.any_cons, hsf, Bool.true_or, hnl, Bool.not_false, Bool.and_true,
          if_true]
    · rw [Bool.not_eq_true] at hsf
      have hstep : pairRedact f red (k, v) = (k, v) := by
        simp only [pairRedact, hsf, Bool.false_and, Bool.false_eq_true, if_false]
      rw [hstep, ih]
      simp only [List.any_cons, hsf, Bool.false_or]

end FilteredLogger

namespace FilteredLogger

/-- C9 amended: the order of the field list can change the output of
`filter_datum` when the mask itself contains a `field=value<sep>` pattern
(see the counterexample); under the conditions the repository actually
uses — messages that are well-formed `key=value<sep>` lines whose keys
and values contain neither `=` nor the separator, a single-character
separator other than `=`, field names free of the separator, and a mask
(such as `"***"`) free of `=` and of the separator — `filter_datum`
produces the same output for every permutation of the field list. -/
theorem filter_datum_perm_invariant (fields1 fields2 : List String) (red : String) (c : Char)
    (ps : List (List Char × List Char))
    (hperm : fields1.Perm fields2)
    (hc : c ≠ '=')
    (hfields : ∀ f ∈ fields1, c ∉ f.toList)
    (hred1 : '=' ∉ red.toList) (hred2 : c ∉ red.toList)
    (hps : ∀ p ∈ ps, '=' ∉ p.1 ∧ '=' ∉ p.2 ∧ c ∉ p.2) :
    filter_datum fields1 red (String.mk (renderPairs c ps)) (String.mk [c]) =
      filter_datum fields2 red (String.mk (renderPairs c ps)) (String.mk [c]) := by
  unfold filter_datum
  congr 1
  have e1 : (String.mk (renderPairs c ps)).toList = renderPairs c ps := rfl
  have e2 : (String.mk [c]).toList = [c] := rfl
  simp only [e1, e2]
  have hfold : ∀ (fs : List String) (m : List Char),
      fs.foldl (fun m field => subOne field.toList red.toList [c] m) m =
        (fs.map String.toList).foldl (fun m f => subOne f red.toList [c] m) m := by
    intro fs
    induction fs with
    | nil => intro m; rfl
    | cons g fs ih =>
      intro m
      simp only [List.foldl_cons, List.map_cons, ih]
  rw [hfold, hfold]
  have hf1 : ∀ f ∈ fields1.map String.toList, c ∉ f := by
    intro f hf
    obtain ⟨g, hg, rfl⟩ := List.mem_map.mp hf
    exact hfields g hg
  have hf2 : ∀ f ∈ fields2.map String.toList, c ∉ f := by
    intro f hf
    obtain ⟨g, hg, rfl⟩ := List.mem_map.mp hf
    exact hfields g (hperm.mem_iff.mpr hg)
  rw [foldl_subOne_render red.toList c hc hred1 hred2 (fields1.map String.toList) ps hf1 hps,
    foldl_subOne_render red.toList c hc hred1 hred2 (fields2.map String.toList) ps hf2 hps]
  congr 1
  apply List.map_congr_left
  intro p _
  cases p with
  | mk k v =>
    rw [pairApply_eq, pairApply_eq,
      list_perm_any (fields1.map String.toList) (fields2.map String.toList)
        (hperm.map String.toList) (fun f => f.isSuffixOf k)]

/-- C9 witness: the amended invariance at the repository's own
configuration — the PII fields `password` and `ssn` in both orders, mask
`"***"`, separator `;` — on the rendered example record. -/
theorem filter_datum_perm_invariant_witness :
    filter_datum ["password", "ssn"] "***"
        (String.mk (renderPairs ';' [("name".toList, "Bob".toList),
          ("ssn".toList, "000-00-0000".toList), ("password".toList, "x".toList)]))
        (String.mk [';']) =
      filter_datum ["ssn", "password"] "***"
        (String.mk (renderPairs ';' [("name".toList, "Bob".toList),
          ("ssn".toList, "000-00-0000".toList), ("password".toList, "x".toList)]))
        (String.mk [';']) :=
  filter_datum_perm_invariant ["password", "ssn"] ["ssn", "password"] "***" ';'
    [("name".toList, "Bob".toList), ("ssn".toList, "000-00-0000".toList),
      ("password".toList, "x".toList)]
    (List.Perm.swap "ssn" "password" []) (by decide) (by decide) (by decide) (by decide)
    (by decide)

end FilteredLogger
